/-
Verification of the `iti` reactive UI-component toolkit
(crates/iti/src/components/{pane,list,tab,dropdown}.rs).

The DOM is modelled as a store of node ids with per-node child lists and
style maps.  Elements, text nodes and event listeners are all identified by
ids allocated from a single counter, so freshly created nodes are distinct
from all existing ones.  Rust structures are translated field by field;
`FnMut() -> T` pane factories are modelled as functions `Nat → T` from the
invocation number to the produced instance, together with a per-factory
invocation counter (each call of a Rust `FnMut` closure constructs a fresh
value; the invocation number tags which call produced an instance).
Fallible operations (`Vec::remove`, which panics when the index is out of
range) return `Except String`.
-/
import Mathlib

set_option autoImplicit false

namespace Iti

/-- The DOM: an id allocator, a children list per node and a style map per
node.  `children p` lists the child node ids of `p` in document order;
`styles n k` is the value of inline style property `k` on node `n`. -/
structure Dom where
  nextId : Nat
  children : Nat → List Nat
  styles : Nat → String → Option String

/-- An empty document. -/
def Dom.init : Dom :=
  { nextId := 0, children := fun _ => [], styles := fun _ _ => none }

/-- Allocate a fresh node id (element, text node or event listener); the new
node has no children and no styles. -/
def Dom.fresh (d : Dom) : Nat × Dom :=
  ( d.nextId
  , { nextId := d.nextId + 1
    , children := fun j => if j = d.nextId then [] else d.children j
    , styles := fun j => if j = d.nextId then fun _ => none else d.styles j } )

/-- `parent.append_child(child)`. -/
def Dom.appendChild (d : Dom) (parent child : Nat) : Dom :=
  { d with children := fun j =>
      if j = parent then d.children parent ++ [child] else d.children j }

/-- `parent.remove_child(child)`: removes the (unique) occurrence of `child`
from the child list of `parent`. -/
def Dom.removeChild (d : Dom) (parent child : Nat) : Dom :=
  { d with children := fun j =>
      if j = parent then (d.children parent).erase child else d.children j }

/-- Insert `child` just before `before` in a child list. -/
def insertBeforeList (cs : List Nat) (before child : Nat) : List Nat :=
  match cs with
  | [] => [child]
  | c :: rest =>
      if c = before then child :: c :: rest
      else c :: insertBeforeList rest before child

/-- `parent.insert_child_before(before, child)`. -/
def Dom.insertChildBefore (d : Dom) (parent before child : Nat) : Dom :=
  { d with children := fun j =>
      if j = parent then insertBeforeList (d.children parent) before child
      else d.children j }

/-- `node.set_style(key, value)`. -/
def Dom.setStyle (d : Dom) (node : Nat) (key value : String) : Dom :=
  { d with styles := fun j =>
      if j = node then fun k => if k = key then some value else d.styles node k
      else d.styles j }

/-- `node.remove_style(key)`. -/
def Dom.removeStyle (d : Dom) (node : Nat) (key : String) : Dom :=
  { d with styles := fun j =>
      if j = node then fun k => if k = key then none else d.styles node k
      else d.styles j }

/-- `ProxyChild::replace`: the proxy's current node `old` is swapped for
`new` in place inside `parent`'s child list. -/
def Dom.replaceChildNode (d : Dom) (parent old new : Nat) : Dom :=
  { d with children := fun j =>
      if j = parent then (d.children parent).map fun c => if c = old then new else c
      else d.children j }

/-- A node in Retain mode is visible when it does not carry the
`display: none` inline style. -/
def Dom.visible (d : Dom) (node : Nat) : Prop :=
  d.styles node "display" ≠ some "none"

instance (d : Dom) (node : Nat) : Decidable (d.visible node) := by
  unfold Dom.visible; infer_instance

/-! ## Panes (`pane.rs`) -/

/-- `PaneMode`: controls how `Panes` shows and hides pane content. -/
inductive PaneMode where
  | Replace
  | Retain
deriving DecidableEq, Repr

/-- `Panes<V, T>`: static panes container.  `proxyNode` is the DOM node
currently standing in for the `ProxyChild` (used in Replace mode);
throughout, a pane value of type `T` contributes its root DOM node through
a parameter `root : T → Nat`. -/
structure Panes (T : Type) where
  wrapper : Nat
  mode : PaneMode
  index : Option Nat
  proxyNode : Nat
  slots : List Nat
  defaultSlot : Option Nat
  defaultPane : T
  panes : List T

namespace Panes

variable {T : Type}

/-- `Panes::new`: Replace-mode container showing `pane` as default content. -/
def new (root : T → Nat) (wrapper : Nat) (pane : T) (d : Dom) : Panes T × Dom :=
  let d1 := d.appendChild wrapper (root pane)
  ( { wrapper := wrapper
    , mode := PaneMode.Replace
    , index := none
    , proxyNode := root pane
    , slots := []
    , defaultSlot := none
    , defaultPane := pane
    , panes := [] }
  , d1 )

/-- `Panes::new_retained`: Retain-mode container; the default pane is put in
a slot `div` appended to the wrapper, and the proxy child is an unused
placeholder text node. -/
def new_retained (root : T → Nat) (wrapper : Nat) (pane : T) (d : Dom) :
    Panes T × Dom :=
  let ds := d.fresh.1
  let d1 := d.fresh.2
  let d2 := d1.appendChild ds (root pane)
  let d3 := d2.setStyle wrapper "display" "flex"
  let d4 := d3.setStyle wrapper "flex-direction" "column"
  let d5 := d4.appendChild wrapper ds
  let ph := d5.fresh.1
  let d6 := d5.fresh.2
  ( { wrapper := wrapper
    , mode := PaneMode.Retain
    , index := none
    , proxyNode := ph
    , slots := []
    , defaultSlot := some ds
    , defaultPane := pane
    , panes := [] }
  , d6 )

/-- `Panes::add_pane`: in Retain mode the pane is immediately appended to
the DOM inside a hidden wrapper `div` slot. -/
def add_pane (root : T → Nat) (p : Panes T) (pane : T) (d : Dom) :
    Panes T × Dom :=
  if p.mode = PaneMode.Retain then
    let slot := d.fresh.1
    let d1 := d.fresh.2
    let d2 := d1.setStyle slot "display" "none"
    let d3 := d2.setStyle slot "flex" "1"
    let d4 := d3.setStyle slot "min-height" "0"
    let d5 := d4.appendChild slot (root pane)
    let d6 := d5.appendChild p.wrapper slot
    ( { p with slots := p.slots ++ [slot], panes := p.panes ++ [pane] }, d6 )
  else
    ( { p with panes := p.panes ++ [pane] }, d )

/-- `Panes::active_slot`: the currently visible slot in Retain mode. -/
def active_slot (p : Panes T) : Nat :=
  match p.index with
  | some n => p.slots.getD n 0
  | none => p.defaultSlot.getD 0

/-- `Panes::select`: show the pane at `index`, hiding the previously active
pane.  Same-index and out-of-range selections do nothing. -/
def select (root : T → Nat) (p : Panes T) (index : Nat) (d : Dom) :
    Panes T × Dom :=
  if p.index = some index then (p, d)
  else
    match p.mode with
    | PaneMode.Replace =>
        match p.panes.get? index with
        | some pane =>
            ( { p with index := some index, proxyNode := root pane }
            , d.replaceChildNode p.wrapper p.proxyNode (root pane) )
        | none => (p, d)
    | PaneMode.Retain =>
        if index < p.panes.length then
          let d1 := d.setStyle p.active_slot "display" "none"
          let d2 := d1.removeStyle (p.slots.getD index 0) "display"
          ( { p with index := some index }, d2 )
        else (p, d)

/-- `Panes::get_pane`: the currently visible pane (default when unselected
or when the stored index has no backing pane). -/
def get_pane (p : Panes T) : T :=
  match p.index with
  | some n => (p.panes.get? n).getD p.defaultPane
  | none => p.defaultPane

end Panes

/-- `RestartPanes<V, T>`: factory-based panes container.  `panes` stores
factories; `calls i` counts how many times factory `i` has been invoked, and
a factory applied to its invocation number models one `FnMut()` call
producing a fresh instance. -/
structure RestartPanes (T : Type) where
  wrapper : Nat
  index : Option Nat
  proxyNode : Nat
  pane : T
  panes : List (Nat → T)
  calls : Nat → Nat

namespace RestartPanes

variable {T : Type}

/-- `RestartPanes::new`. -/
def new (root : T → Nat) (wrapper : Nat) (default_pane : T) (d : Dom) :
    RestartPanes T × Dom :=
  let d1 := d.appendChild wrapper (root default_pane)
  ( { wrapper := wrapper
    , index := none
    , proxyNode := root default_pane
    , pane := default_pane
    , panes := []
    , calls := fun _ => 0 }
  , d1 )

/-- `RestartPanes::select`: re-create the pane at `index` from its factory,
swap it in, and record the new index; same-index and out-of-range
selections do nothing. -/
def select (root : T → Nat) (p : RestartPanes T) (index : Nat) (d : Dom) :
    RestartPanes T × Dom :=
  if p.index = some index then (p, d)
  else
    match p.panes.get? index with
    | some f =>
        let n := p.calls index
        let pane := f n
        ( { p with
              pane := pane
            , proxyNode := root pane
            , index := some index
            , calls := fun j => if j = index then n + 1 else p.calls j }
        , d.replaceChildNode p.wrapper p.proxyNode (root pane) )
    | none => (p, d)

/-- `RestartPanes::add_pane`: push a factory; the first pane added
auto-selects index 0. -/
def add_pane (root : T → Nat) (p : RestartPanes T) (create : Nat → T)
    (d : Dom) : RestartPanes T × Dom :=
  let p1 := { p with panes := p.panes ++ [create] }
  if p1.panes.length = 1 then select root p1 0 d else (p1, d)

/-- `RestartPanes::get_pane`. -/
def get_pane (p : RestartPanes T) : T :=
  p.pane

end RestartPanes

/-! ## Lists (`list.rs`) -/

/-- The `race_all` combinator over the enumerated child futures of a
container: the first child whose click listener fired wins, tagged with its
enumeration index (`p a` holds when the pending DOM event belongs to child
`a`). -/
def raceIdx {α : Type} (p : α → Bool) : List α → Option Nat
  | [] => none
  | a :: rest => if p a then some 0 else (raceIdx p rest).map (· + 1)

/-- Bootstrap `Flavor` (components/mod.rs). -/
inductive Flavor where
  | Primary | Secondary | Success | Danger | Warning | Info | Light | Dark | Link
deriving DecidableEq, Repr

/-- `ItemState`: reactive state of a list item (drives its CSS class). -/
structure ItemState where
  flavor : Option Flavor
  is_active : Bool
deriving DecidableEq, Repr

/-- `ListItem<V, T>`: `li` is the root element id, `on_click` the click
listener id. -/
structure ListItem (T : Type) where
  li : Nat
  item : T
  on_click : Nat
  state : ItemState

/-- `ListItem::new`. -/
def ListItem.new {T : Type} (root : T → Nat) (item : T) (d : Dom) :
    ListItem T × Dom :=
  let (li, d1) := d.fresh
  let (cl, d2) := d1.fresh
  let d3 := d2.appendChild li (root item)
  ( { li := li, item := item, on_click := cl
    , state := { flavor := none, is_active := false } }
  , d3 )

/-- `ListEvent<V>`: emitted when a list item is clicked; `event` is the id
of the listener whose DOM event fired. -/
structure ListEvent where
  index : Nat
  event : Nat
deriving DecidableEq, Repr

/-- `List<V, T>` (named `ListC` because `List` is taken in Lean). -/
structure ListC (T : Type) where
  ul : Nat
  items : List (ListItem T)

namespace ListC

variable {T : Type}

/-- `List::default`. -/
def empty (d : Dom) : ListC T × Dom :=
  let (ul, d1) := d.fresh
  ({ ul := ul, items := [] }, d1)

/-- `List::len`. -/
def len (l : ListC T) : Nat :=
  l.items.length

/-- `List::push`. -/
def push (root : T → Nat) (l : ListC T) (item : T) (d : Dom) :
    ListC T × Dom :=
  let (it, d1) := ListItem.new root item d
  let d2 := d1.appendChild l.ul it.li
  ({ l with items := l.items ++ [it] }, d2)

/-- `List::insert`: inserts before the item currently at `index`, or appends
when `index` is past the end. -/
def insert (root : T → Nat) (l : ListC T) (index : Nat) (item : T) (d : Dom) :
    ListC T × Dom :=
  let (it, d1) := ListItem.new root item d
  match l.items.get? index with
  | some prev =>
      ( { l with items := l.items.insertIdx index it }
      , d1.insertChildBefore l.ul prev.li it.li )
  | none =>
      ({ l with items := l.items ++ [it] }, d1.appendChild l.ul it.li)

/-- `List::remove`: removes and returns the item at `index`; `Vec::remove`
panics (modelled as `Except.error`) when `index` is out of range. -/
def remove (l : ListC T) (index : Nat) (d : Dom) :
    Except String ((T × ListC T) × Dom) :=
  match l.items.get? index with
  | some it =>
      .ok ((it.item, { l with items := l.items.eraseIdx index })
          , d.removeChild l.ul it.li)
  | none => .error "removal index should be less than len"

/-- `List::item_click_events` / `List::step`: the race over
`items.iter().enumerate()` resolves with the item whose click listener
fired, tagged with its enumeration index.  `fired` is the listener id that
received the DOM event; `none` means no listener of this list fired. -/
def stepFired (l : ListC T) (fired : Nat) : Option ListEvent :=
  (raceIdx (fun it => it.on_click == fired) l.items).map
    fun index => { index := index, event := fired }

end ListC

/-! ## Tabs (`tab.rs`) -/

/-- `TabListItem<V, T>`: `is_active` is the current value of the reactive
`Proxy<bool>` driving the `nav-link active` class. -/
structure TabListItem (T : Type) where
  li : Nat
  a : Nat
  on_click : Nat
  inner : T
  is_active : Bool

/-- `TabListItem::new`. -/
def TabListItem.new {T : Type} (root : T → Nat) (inner : T) (d : Dom) :
    TabListItem T × Dom :=
  let (li, d1) := d.fresh
  let (a, d2) := d1.fresh
  let (cl, d3) := d2.fresh
  let d4 := d3.appendChild li a
  let d5 := d4.appendChild a (root inner)
  ({ li := li, a := a, on_click := cl, inner := inner, is_active := false }, d5)

/-- `TabListEvent<V>`. -/
structure TabListEvent where
  index : Nat
  event : Nat
deriving DecidableEq, Repr

/-- `TabList<V, T>`. -/
structure TabList (T : Type) where
  ul : Nat
  items : List (TabListItem T)

namespace TabList

variable {T : Type}

/-- `TabList::default`. -/
def empty (d : Dom) : TabList T × Dom :=
  let (ul, d1) := d.fresh
  ({ ul := ul, items := [] }, d1)

/-- `TabList::len`. -/
def len (tl : TabList T) : Nat :=
  tl.items.length

/-- `TabList::deselect_all`. -/
def deselect_all (tl : TabList T) : TabList T :=
  { tl with items := tl.items.map fun it => { it with is_active := false } }

/-- `TabList::select`: deselect every tab, then activate tab `index` if it
exists. -/
def select (tl : TabList T) (index : Nat) : TabList T :=
  let tl1 := tl.deselect_all
  match tl1.items.get? index with
  | some it => { tl1 with items := tl1.items.set index { it with is_active := true } }
  | none => tl1

/-- `TabList::push`: append a tab; the first tab pushed is auto-selected. -/
def push (root : T → Nat) (tl : TabList T) (item : T) (d : Dom) :
    (Nat × TabList T) × Dom :=
  let index := tl.items.length
  let (it, d1) := TabListItem.new root item d
  let d2 := d1.appendChild tl.ul it.li
  let tl1 : TabList T := { tl with items := tl.items ++ [it] }
  let tl2 := if tl1.items.length = 1 then tl1.select 0 else tl1
  ((index, tl2), d2)

/-- `TabList::remove`: removes and returns the tab content at `index`;
`Vec::remove` panics (modelled as `Except.error`) when out of range. -/
def remove (root : T → Nat) (tl : TabList T) (index : Nat) (d : Dom) :
    Except String ((T × TabList T) × Dom) :=
  match tl.items.get? index with
  | some it =>
      let d1 := d.removeChild tl.ul it.li
      let d2 := d1.removeChild it.a (root it.inner)
      .ok ((it.inner, { tl with items := tl.items.eraseIdx index }), d2)
  | none => .error "removal index should be less than len"

/-- `TabList::item_events` / `TabList::step`: resolves with the tab whose
click listener `fired`. -/
def stepFired (tl : TabList T) (fired : Nat) : Option TabListEvent :=
  (raceIdx (fun it => it.on_click == fired) tl.items).map
    fun index => { index := index, event := fired }

end TabList

/-! ## Dropdown (`dropdown.rs`) -/

/-- `DropdownEvent<V>`: a menu item was clicked. -/
structure DropdownEvent where
  index : Nat
  event : Nat
deriving DecidableEq, Repr

/-- `DropdownItem<V>`. -/
structure DropdownItem where
  li : Nat
  on_click : Nat

/-- `DropdownItem::new`. -/
def DropdownItem.new (d : Dom) : DropdownItem × Dom :=
  let (li, d1) := d.fresh
  let (a, d2) := d1.fresh
  let (cl, d3) := d2.fresh
  let (text, d4) := d3.fresh
  let d5 := d4.appendChild a text
  let d6 := d5.appendChild li a
  ({ li := li, on_click := cl }, d6)

/-- `Dropdown<V>`: `openProxy` mirrors the reactive `Proxy<bool>` (the source field `open`, a Lean keyword) driving the
`dropdown-menu show` class; `is_open` is the plain bookkeeping field. -/
structure Dropdown where
  wrapper : Nat
  menu : Nat
  toggle_click : Nat
  items : List DropdownItem
  openProxy : Bool
  is_open : Bool
  flavor : Flavor

/-- `Dropdown::new`. -/
def Dropdown.new (flavor : Flavor) (d : Dom) : Dropdown × Dom :=
  let (wrapper, d1) := d.fresh
  let (button, d2) := d1.fresh
  let (cl, d3) := d2.fresh
  let (label_text, d4) := d3.fresh
  let (menu, d5) := d4.fresh
  let d6 := d5.appendChild button label_text
  let d7 := d6.appendChild wrapper button
  let d8 := d7.appendChild wrapper menu
  ( { wrapper := wrapper, menu := menu, toggle_click := cl, items := []
    , openProxy := false, is_open := false, flavor := flavor }
  , d8 )

namespace Dropdown

/-- `Dropdown::push`: add a menu item and return its index. -/
def push (dd : Dropdown) (d : Dom) : (Nat × Dropdown) × Dom :=
  let index := dd.items.length
  let (it, d1) := DropdownItem.new d
  let d2 := d1.appendChild dd.menu it.li
  ((index, { dd with items := dd.items ++ [it] }), d2)

/-- `Dropdown::remove`: remove a menu item by index; `Vec::remove` panics
(modelled as `Except.error`) when `index >= len`. -/
def remove (dd : Dropdown) (index : Nat) (d : Dom) :
    Except String (Dropdown × Dom) :=
  match dd.items.get? index with
  | some it =>
      .ok ({ dd with items := dd.items.eraseIdx index }
          , d.removeChild dd.menu it.li)
  | none => .error "removal index should be less than len"

/-- `Dropdown::toggle`. -/
def toggle (dd : Dropdown) : Dropdown :=
  { dd with is_open := !dd.is_open, openProxy := !dd.is_open }

/-- `Dropdown::step`: resolves `none` when the toggle button's listener
fired, `some (ItemClicked ..)` when a menu item's listener fired; the outer
`Option` is `none` when no listener of this dropdown fired (the future
stays pending). -/
def stepFired (dd : Dropdown) (fired : Nat) : Option (Option DropdownEvent) :=
  if fired = dd.toggle_click then some none
  else
    (raceIdx (fun it => it.on_click == fired) dd.items).map
      fun index => some { index := index, event := fired }

end Dropdown

/-- Identity root function for concrete pane values of type `Nat` (the pane
value doubles as its root DOM node id in the sandbox witnesses below). -/
def natRoot : Nat → Nat := fun t => t

/-- Sandbox: a fresh Restart container with default pane `5`. -/
def demoRestart0 : RestartPanes Nat × Dom := RestartPanes.new natRoot 0 5 Dom.init

/-- Sandbox: one factory added (auto-selecting index 0). -/
def demoRestart1 : RestartPanes Nat × Dom :=
  RestartPanes.add_pane natRoot demoRestart0.1 (fun n => 100 + n) demoRestart0.2

/-- Sandbox: a second factory added. -/
def demoRestart2 : RestartPanes Nat × Dom :=
  RestartPanes.add_pane natRoot demoRestart1.1 (fun n => 200 + n) demoRestart1.2

/-- One user-level operation on a `Panes` container. -/
inductive PanesOp (T : Type) where
  | add (pane : T)
  | sel (i : Nat)

/-- Whether an operation is an `add_pane`. -/
def PanesOp.isAdd {T : Type} : PanesOp T → Bool
  | .add _ => true
  | .sel _ => false

/-- Run one operation on a `Panes` container. -/
def runPanesOp {T : Type} (root : T → Nat) (st : Panes T × Dom)
    (op : PanesOp T) : Panes T × Dom :=
  match op with
  | .add pane => Panes.add_pane root st.1 pane st.2
  | .sel i => Panes.select root st.1 i st.2

/-- Run a sequence of operations on a `Panes` container. -/
def runPanesOps {T : Type} (root : T → Nat) (st : Panes T × Dom)
    (ops : List (PanesOp T)) : Panes T × Dom :=
  ops.foldl (runPanesOp root) st

/-- Invariant of a Retain-mode container: one slot per pane, the default
slot followed by all pane slots attached to the wrapper (all distinct,
allocated below the id watermark), and visibility concentrated on the
active slot: the default slot before any selection, the selected slot
afterwards, with every other slot carrying `display: none`. -/
def RetainInv {T : Type} (p : Panes T) (d : Dom) : Prop :=
  p.mode = PaneMode.Retain ∧
  p.slots.length = p.panes.length ∧
  ∃ ds, p.defaultSlot = some ds ∧
    d.children p.wrapper = ds :: p.slots ∧
    (ds :: p.slots).Nodup ∧
    p.wrapper ∉ ds :: p.slots ∧
    (∀ s ∈ ds :: p.slots, s < d.nextId) ∧
    p.wrapper < d.nextId ∧
    (match p.index with
     | none => d.visible ds ∧ ∀ s ∈ p.slots, ¬ d.visible s
     | some n => n < p.slots.length ∧ ¬ d.visible ds ∧
         (∀ j, ∀ hj : j < p.slots.length,
            (d.visible (p.slots.get ⟨j, hj⟩) ↔ j = n)))

/-- A Retain-mode container born from a fresh wrapper element in an
arbitrary document, after an arbitrary workload of `add_pane`/`select`
operations. -/
def retainRun {T : Type} (root : T → Nat) (pane0 : T) (d0 : Dom)
    (ops : List (PanesOp T)) : Panes T × Dom :=
  runPanesOps root (Panes.new_retained root d0.fresh.1 pane0 d0.fresh.2) ops

/-- Sandbox: an empty list component. -/
def demoList0 : ListC Nat × Dom := ListC.empty Dom.init

/-- Sandbox: three items pushed (the 3-item list of the removal scenario). -/
def demoList1 : ListC Nat × Dom := ListC.push natRoot demoList0.1 10 demoList0.2

def demoList2 : ListC Nat × Dom := ListC.push natRoot demoList1.1 20 demoList1.2

def demoList3 : ListC Nat × Dom := ListC.push natRoot demoList2.1 30 demoList2.2

/-- Sandbox: the 3-item list after `remove(1)` (the error branch is
unreachable on this input). -/
def demoListRemoved : (Nat × ListC Nat) × Dom :=
  match ListC.remove demoList3.1 1 demoList3.2 with
  | .ok r => r
  | .error _ => ((0, demoList3.1), demoList3.2)

/-- Sandbox: an empty tab list. -/
def demoTabs0 : TabList Nat × Dom := TabList.empty Dom.init

/-- Sandbox: one tab pushed (auto-selected). -/
def demoTabs1 : TabList Nat × Dom :=
  ((TabList.push natRoot demoTabs0.1 50 demoTabs0.2).1.2
  , (TabList.push natRoot demoTabs0.1 50 demoTabs0.2).2)

/-- Sandbox: a second tab pushed. -/
def demoTabs2 : TabList Nat × Dom :=
  ((TabList.push natRoot demoTabs1.1 60 demoTabs1.2).1.2
  , (TabList.push natRoot demoTabs1.1 60 demoTabs1.2).2)

/-- Sandbox: a dropdown with three menu items. -/
def demoDropdown0 : Dropdown × Dom := Dropdown.new Flavor.Primary Dom.init

def demoDropdown1 : Dropdown × Dom :=
  ((Dropdown.push demoDropdown0.1 demoDropdown0.2).1.2
  , (Dropdown.push demoDropdown0.1 demoDropdown0.2).2)

def demoDropdown2 : Dropdown × Dom :=
  ((Dropdown.push demoDropdown1.1 demoDropdown1.2).1.2
  , (Dropdown.push demoDropdown1.1 demoDropdown1.2).2)

def demoDropdown3 : Dropdown × Dom :=
  ((Dropdown.push demoDropdown2.1 demoDropdown2.2).1.2
  , (Dropdown.push demoDropdown2.1 demoDropdown2.2).2)

/-! ## Theorems -/

theorem Dom.fresh_fst (d : Dom) : (d.fresh).1 = d.nextId := rfl

theorem Dom.fresh_nextId (d : Dom) : (d.fresh).2.nextId = d.nextId + 1 := rfl

theorem Dom.fresh_children_of_ne (d : Dom) {q : Nat} (h : q ≠ d.nextId) :
    (d.fresh).2.children q = d.children q := by
  simp [Dom.fresh, h]

theorem Dom.fresh_styles_of_ne (d : Dom) {q : Nat} (h : q ≠ d.nextId) :
    (d.fresh).2.styles q = d.styles q := by
  simp [Dom.fresh, h]

theorem Dom.appendChild_children_self (d : Dom) (p c : Nat) :
    (d.appendChild p c).children p = d.children p ++ [c] := by
  simp [Dom.appendChild]

theorem Dom.appendChild_children_of_ne (d : Dom) {p q : Nat} (c : Nat)
    (h : q ≠ p) : (d.appendChild p c).children q = d.children q := by
  simp [Dom.appendChild, h]

theorem Dom.appendChild_styles (d : Dom) (p c : Nat) :
    (d.appendChild p c).styles = d.styles := rfl

theorem Dom.appendChild_nextId (d : Dom) (p c : Nat) :
    (d.appendChild p c).nextId = d.nextId := rfl

theorem Dom.setStyle_children (d : Dom) (n : Nat) (k v : String) :
    (d.setStyle n k v).children = d.children := rfl

theorem Dom.setStyle_nextId (d : Dom) (n : Nat) (k v : String) :
    (d.setStyle n k v).nextId = d.nextId := rfl

theorem Dom.removeStyle_children (d : Dom) (n : Nat) (k : String) :
    (d.removeStyle n k).children = d.children := rfl

theorem Dom.removeStyle_nextId (d : Dom) (n : Nat) (k : String) :
    (d.removeStyle n k).nextId = d.nextId := rfl

theorem Dom.visible_appendChild (d : Dom) (p c n : Nat) :
    (d.appendChild p c).visible n ↔ d.visible n := Iff.rfl

theorem Dom.visible_fresh_new (d : Dom) : (d.fresh).2.visible d.nextId := by
  simp [Dom.fresh, Dom.visible]

theorem Dom.visible_fresh_of_ne (d : Dom) {m : Nat} (h : m ≠ d.nextId) :
    (d.fresh).2.visible m ↔ d.visible m := by
  unfold Dom.visible
  rw [Dom.fresh_styles_of_ne d h]

theorem Dom.visible_setStyle_of_ne (d : Dom) {m n : Nat} (k v : String)
    (h : m ≠ n) : (d.setStyle n k v).visible m ↔ d.visible m := by
  simp [Dom.visible, Dom.setStyle, h]

theorem Dom.not_visible_setStyle_display_none (d : Dom) (n : Nat) :
    ¬ (d.setStyle n "display" "none").visible n := by
  simp [Dom.visible, Dom.setStyle]

theorem Dom.visible_setStyle_of_ne_key (d : Dom) (n : Nat) {k : String}
    (v : String) (h : k ≠ "display") :
    (d.setStyle n k v).visible n ↔ d.visible n := by
  simp [Dom.visible, Dom.setStyle, Ne.symm h]

theorem Dom.visible_removeStyle_display (d : Dom) (n : Nat) :
    (d.removeStyle n "display").visible n := by
  simp [Dom.visible, Dom.removeStyle]

theorem Dom.visible_removeStyle_of_ne (d : Dom) {m n : Nat} (k : String)
    (h : m ≠ n) : (d.removeStyle n k).visible m ↔ d.visible m := by
  simp [Dom.visible, Dom.removeStyle, h]

/-- C3: for every pane container (`Panes` in Replace or Retain mode, and
`RestartPanes`) in any state, `select(i)` with `i` out of range (at least
the number of added panes) is a silent no-op: it does not panic and leaves
the selected index, the stored panes and the DOM entirely unchanged. -/
theorem select_out_of_range_noop {T : Type} (root rootR : T → Nat)
    (p : Panes T) (q : RestartPanes T) (d dR : Dom) (i : Nat)
    (hp : p.panes.length ≤ i) (hq : q.panes.length ≤ i) :
    Panes.select root p i d = (p, d) ∧
    RestartPanes.select rootR q i dR = (q, dR) := by
  constructor
  · unfold Panes.select
    by_cases h : p.index = some i
    · simp [h]
    · cases hm : p.mode with
      | Replace => simp [h, hm, List.getElem?_eq_none hp]
      | Retain => simp [h, hm, Nat.not_lt.mpr hp]
  · unfold RestartPanes.select
    by_cases h : q.index = some i
    · simp [h]
    · simp [h, List.getElem?_eq_none hq]

theorem select_out_of_range_noop_witness :
    ((Panes.new (fun t => t) 0 5 Dom.init).1.panes.length ≤ 2 ∧
      (RestartPanes.new (fun t => t) 0 5 Dom.init).1.panes.length ≤ 2) ∧
    Panes.select (fun t => t) (Panes.new (fun t => t) 0 5 Dom.init).1 2 Dom.init
      = ((Panes.new (fun t => t) 0 5 Dom.init).1, Dom.init) :=
  ⟨⟨by decide, by decide⟩,
    (select_out_of_range_noop (fun t => t) (fun t => t)
      (Panes.new (fun t => t) 0 5 Dom.init).1
      (RestartPanes.new (fun t => t) 0 5 Dom.init).1
      Dom.init Dom.init 2 (by decide) (by decide)).1⟩

/-- C4: for every pane container (`Panes` and `RestartPanes`), `select(i)`
when `i` equals the currently selected index is a no-op: the state (index,
panes, factory invocation counters) and the DOM are unchanged; in
particular, in Restart mode the factory is not invoked again. -/
theorem select_same_index_noop {T : Type} (root rootR : T → Nat)
    (p : Panes T) (q : RestartPanes T) (d dR : Dom) (i : Nat)
    (hp : p.index = some i) (hq : q.index = some i) :
    Panes.select root p i d = (p, d) ∧
    RestartPanes.select rootR q i dR = (q, dR) := by
  unfold Panes.select RestartPanes.select
  simp [hp, hq]

theorem select_same_index_noop_witness :
    ((Panes.select (fun t => t)
        ((Panes.select (fun t => t)
          (Panes.add_pane (fun t => t) (Panes.new (fun t => t) 0 5 Dom.init).1 7
            Dom.init).1 0 Dom.init).1) 0 Dom.init).1).index = some 0 :=
  by
    have h0 : ((Panes.select (fun t => t)
        (Panes.add_pane (fun t => t) (Panes.new (fun t => t) 0 5 Dom.init).1 7
          Dom.init).1 0 Dom.init).1).index = some 0 := by decide
    have h := (select_same_index_noop (fun t => t) (fun t => t)
      ((Panes.select (fun t => t)
        (Panes.add_pane (fun t => t) (Panes.new (fun t => t) 0 5 Dom.init).1 7
          Dom.init).1 0 Dom.init).1)
      (RestartPanes.add_pane (fun t => t)
        (RestartPanes.new (fun t => t) 0 5 Dom.init).1 (fun n => n) Dom.init).1
      Dom.init Dom.init 0 h0 (by decide)).1
    rw [h]
    exact h0

/-- C5: for every `Panes` container, `get_pane` returns the default pane
while no selection has been made, and immediately after an in-range
`select(i)` it returns the pane at index `i`. -/
theorem get_pane_tracks_selection {T : Type} (root : T → Nat)
    (p : Panes T) (d : Dom) (i : Nat) :
    (p.index = none → p.get_pane = p.defaultPane) ∧
    (i < p.panes.length →
      ((Panes.select root p i d).1).get_pane = p.panes.getD i p.defaultPane) := by
  constructor
  · intro h
    unfold Panes.get_pane
    simp [h]
  · intro hi
    have hget : p.panes.get? i = some (p.panes.get ⟨i, hi⟩) := List.get?_eq_get hi
    by_cases h : p.index = some i
    · unfold Panes.select
      simp only [h, if_pos rfl]
      unfold Panes.get_pane
      simp [h, hget, List.getD_eq_getElem?_getD]
    · unfold Panes.select
      cases hm : p.mode with
      | Replace =>
          simp only [h, if_neg h, hm, hget]
          unfold Panes.get_pane
          simp [hget, List.getD_eq_getElem?_getD]
      | Retain =>
          simp only [h, if_neg h, hm, if_pos hi]
          unfold Panes.get_pane
          simp [hget, List.getD_eq_getElem?_getD]

/-- Unfolding lemma: a successful Restart selection invokes the factory at
its current invocation number and bumps the counter. -/
theorem RestartPanes.select_eq_of {T : Type} (root : T → Nat)
    (p : RestartPanes T) (i : Nat) (d : Dom)
    (h1 : i < p.panes.length) (h2 : p.index ≠ some i) :
    RestartPanes.select root p i d =
      ( { p with
            pane := p.panes.get ⟨i, h1⟩ (p.calls i)
          , proxyNode := root (p.panes.get ⟨i, h1⟩ (p.calls i))
          , index := some i
          , calls := fun j => if j = i then p.calls i + 1 else p.calls j }
      , d.replaceChildNode p.wrapper p.proxyNode
          (root (p.panes.get ⟨i, h1⟩ (p.calls i))) ) := by
  unfold RestartPanes.select
  rw [if_neg h2]
  rw [show p.panes.get? i = some (p.panes.get ⟨i, h1⟩) by
    rw [List.get?_eq_getElem?]
    exact List.getElem?_eq_getElem h1]

/-- C1: for every `RestartPanes` container and every in-range index `i`
different from the currently selected index, `select(i)` invokes the stored
factory for `i` (its invocation counter is bumped by exactly one and the new
pane is the factory's output at a never-before-used invocation number),
replaces the previous instance with the fresh one both in the `pane` field
and in the DOM, and sets the current index to `i`.  The final conjunct shows
that revisiting `i` (select another in-range `j`, then `i` again) constructs
yet another instance, at the next invocation number. -/
theorem restart_select_constructs_fresh {T : Type} (root : T → Nat)
    (p : RestartPanes T) (i : Nat) (d : Dom)
    (h1 : i < p.panes.length) (h2 : p.index ≠ some i) :
    ((RestartPanes.select root p i d).1.pane
        = p.panes.get ⟨i, h1⟩ (p.calls i)) ∧
    ((RestartPanes.select root p i d).1.index = some i) ∧
    ((RestartPanes.select root p i d).1.calls i = p.calls i + 1) ∧
    (∀ j, j ≠ i → (RestartPanes.select root p i d).1.calls j = p.calls j) ∧
    ((RestartPanes.select root p i d).1.panes = p.panes) ∧
    ((RestartPanes.select root p i d).1.proxyNode
        = root (p.panes.get ⟨i, h1⟩ (p.calls i))) ∧
    ((RestartPanes.select root p i d).2
        = d.replaceChildNode p.wrapper p.proxyNode
            (root (p.panes.get ⟨i, h1⟩ (p.calls i)))) ∧
    (∀ j, ∀ _hj : j < p.panes.length, j ≠ i → ∀ d' d'' : Dom,
      (RestartPanes.select root
        ((RestartPanes.select root
          ((RestartPanes.select root p i d).1) j d').1) i d'').1.pane
        = p.panes.get ⟨i, h1⟩ (p.calls i + 1)) := by
  rw [RestartPanes.select_eq_of root p i d h1 h2]
  refine ⟨rfl, rfl, by simp, fun j hj => by simp [hj], rfl, rfl, rfl, ?_⟩
  intro j hj hji d' d''
  rw [RestartPanes.select_eq_of root _ j d' (by simpa using hj)
    (by simp [Ne.symm hji])]
  rw [RestartPanes.select_eq_of root _ i d'' (by simpa using h1)
    (by simp [hji])]
  simp [Ne.symm hji]

theorem restart_select_constructs_fresh_witness :
    (1 < demoRestart2.1.panes.length ∧ demoRestart2.1.index ≠ some 1) ∧
    (RestartPanes.select natRoot demoRestart2.1 1 demoRestart2.2).1.index
      = some 1 ∧
    (RestartPanes.select natRoot demoRestart2.1 1 demoRestart2.2).1.pane
      = 200 := by
  have h1 : 1 < demoRestart2.1.panes.length := by decide
  have h2 : demoRestart2.1.index ≠ some 1 := by decide
  have h := restart_select_constructs_fresh natRoot demoRestart2.1 1
    demoRestart2.2 h1 h2
  exact ⟨⟨h1, h2⟩, h.2.1, by
    rw [h.1]
    show (200 + demoRestart2.1.calls 1 : Nat) = 200
    rfl⟩

/-- C6: for every `RestartPanes` container in the Unselected state, the
first `add_pane` auto-selects index 0: afterwards the selected index is
`some 0` and the displayed pane is the fresh instance the just-added
factory constructed during that `add_pane` call (its invocation counter is
bumped).  `Panes::add_pane` (Replace and Retain modes), by contrast, never
changes the selected index. -/
theorem restart_first_add_pane_autoselects {T : Type} (root : T → Nat)
    (p : RestartPanes T) (f : Nat → T) (d : Dom)
    (hempty : p.panes = []) (hunsel : p.index = none) :
    ((RestartPanes.add_pane root p f d).1.index = some 0) ∧
    ((RestartPanes.add_pane root p f d).1.pane = f (p.calls 0)) ∧
    ((RestartPanes.add_pane root p f d).1.calls 0 = p.calls 0 + 1) ∧
    (∀ (q : Panes T) (pane : T) (dq : Dom),
      ((Panes.add_pane root q pane dq).1).index = q.index) := by
  obtain ⟨w, idx, pn, pane0, panes, calls⟩ := p
  dsimp only at hempty hunsel
  subst hempty
  subst hunsel
  refine ⟨?_, ?_, ?_, ?_⟩
  · simp [RestartPanes.add_pane, RestartPanes.select]
  · simp [RestartPanes.add_pane, RestartPanes.select]
  · simp [RestartPanes.add_pane, RestartPanes.select]
  · intro q pane dq
    unfold Panes.add_pane
    split <;> rfl

theorem restart_first_add_pane_autoselects_witness :
    (demoRestart0.1.panes = [] ∧ demoRestart0.1.index = none) ∧
    demoRestart1.1.index = some 0 ∧ demoRestart1.1.pane = 100 ∧
    demoRestart1.1.calls 0 = 1 := by
  have hempty : demoRestart0.1.panes = [] := rfl
  have hunsel : demoRestart0.1.index = none := rfl
  have h := restart_first_add_pane_autoselects natRoot demoRestart0.1
    (fun n => 100 + n) demoRestart0.2 hempty hunsel
  exact ⟨⟨hempty, hunsel⟩, h.1, h.2.1, h.2.2.1⟩

/-- C10: for every `TabList`, `select(i)` first deselects every tab
unconditionally and then activates tab `i` only if `i` is in range; with an
out-of-range `i` the tab list is left with no active tab at all (so, unlike
pane selection, out-of-range tab selection is not a no-op on a list that
had an active tab). -/
theorem tablist_select_deselects_then_activates {T : Type}
    (tl : TabList T) (i : Nat) :
    ((tl.select i).items.length = tl.items.length) ∧
    (∀ j, ∀ hj : j < (tl.select i).items.length, j ≠ i →
        ((tl.select i).items.get ⟨j, hj⟩).is_active = false) ∧
    (∀ _hi : i < tl.items.length, ∀ hj : i < (tl.select i).items.length,
        ((tl.select i).items.get ⟨i, hj⟩).is_active = true) ∧
    (tl.items.length ≤ i → ∀ j, ∀ hj : j < (tl.select i).items.length,
        ((tl.select i).items.get ⟨j, hj⟩).is_active = false) := by
  unfold TabList.select TabList.deselect_all
  dsimp only
  cases hi : tl.items[i]? with
  | some a =>
      have hilt : i < tl.items.length := (List.getElem?_eq_some_iff.mp hi).1
      have hs : (List.map
          (fun it => ({ it with is_active := false} : TabListItem T))
          tl.items).get? i = some { a with is_active := false} := by
        rw [List.get?_eq_getElem?, List.getElem?_map, hi]
        rfl
      rw [hs]
      refine ⟨by simp, ?_, ?_, ?_⟩
      · intro j hj hne
        simp [List.get_eq_getElem, List.getElem_set_ne (Ne.symm hne),
          List.getElem_map]
      · intro hilt2 hj
        simp [List.get_eq_getElem]
      · intro hout
        omega
  | none =>
      have hge : tl.items.length ≤ i := List.getElem?_eq_none_iff.mp hi
      have hs : (List.map
          (fun it => ({ it with is_active := false} : TabListItem T))
          tl.items).get? i = none := by
        rw [List.get?_eq_getElem?, List.getElem?_map, hi]
        rfl
      rw [hs]
      refine ⟨by simp, ?_, ?_, ?_⟩
      · intro j hj hne
        simp [List.get_eq_getElem, List.getElem_map]
      · intro hilt hj
        omega
      · intro hout j hj
        simp [List.get_eq_getElem, List.getElem_map]

theorem get_pane_tracks_selection_witness :
    (((Panes.add_pane (fun t => t) (Panes.new (fun t => t) 0 5 Dom.init).1 7
        Dom.init).1).index = none →
      ((Panes.add_pane (fun t => t) (Panes.new (fun t => t) 0 5 Dom.init).1 7
        Dom.init).1).get_pane
        = ((Panes.add_pane (fun t => t) (Panes.new (fun t => t) 0 5 Dom.init).1 7
            Dom.init).1).defaultPane) ∧
    (0 < ((Panes.add_pane (fun t => t) (Panes.new (fun t => t) 0 5 Dom.init).1 7
        Dom.init).1).panes.length →
      ((Panes.select (fun t => t)
        ((Panes.add_pane (fun t => t) (Panes.new (fun t => t) 0 5 Dom.init).1 7
          Dom.init).1) 0 Dom.init).1).get_pane
        = ((Panes.add_pane (fun t => t) (Panes.new (fun t => t) 0 5 Dom.init).1 7
            Dom.init).1).panes.getD 0
            ((Panes.add_pane (fun t => t) (Panes.new (fun t => t) 0 5 Dom.init).1 7
              Dom.init).1).defaultPane) :=
  get_pane_tracks_selection (fun t => t)
    ((Panes.add_pane (fun t => t) (Panes.new (fun t => t) 0 5 Dom.init).1 7
      Dom.init).1) Dom.init 0

theorem tablist_select_deselects_then_activates_witness :
    (demoTabs2.1.items.get ⟨0, by decide⟩).is_active = true ∧
    demoTabs2.1.items.length ≤ 5 ∧
    ((demoTabs2.1.select 5).items.get ⟨0, by decide⟩).is_active = false ∧
    ((demoTabs2.1.select 5).items.get ⟨1, by decide⟩).is_active = false :=
  ⟨by decide, by decide,
    (tablist_select_deselects_then_activates demoTabs2.1 5).2.2.2
      (by decide) 0 (by decide),
    (tablist_select_deselects_then_activates demoTabs2.1 5).2.2.2
      (by decide) 1 (by decide)⟩

/-- Racing keyed children: when the keys are pairwise distinct, the race
for the key of the child at position `j` resolves with index `j`. -/
theorem raceIdx_keyed {α : Type} (key : α → Nat) :
    ∀ (l : List α), (l.map key).Nodup → ∀ (j : Nat) (hj : j < l.length),
      raceIdx (fun a => key a == key (l.get ⟨j, hj⟩)) l = some j := by
  intro l
  induction l with
  | nil => intro _ j hj; exact absurd hj (by simp)
  | cons a rest ih =>
      intro hnodup j hj
      rw [List.map_cons] at hnodup
      have hnd := List.nodup_cons.mp hnodup
      match j with
      | 0 => simp [raceIdx]
      | Nat.succ k =>
          have hk : k < rest.length := by simpa using hj
          have hgetmem : rest.get ⟨k, hk⟩ ∈ rest := List.get_mem rest k hk
          have hne : key a ≠ key (rest.get ⟨k, hk⟩) := by
            intro he
            exact hnd.1 (by
              rw [he]
              exact List.mem_map_of_mem key hgetmem)
          have hga : (List.get (a :: rest) ⟨k + 1, hj⟩) = rest.get ⟨k, hk⟩ :=
            rfl
          rw [hga]
          unfold raceIdx
          rw [if_neg (by simpa using hne)]
          rw [ih hnd.2 k hk]
          rfl

/-- A resolved race points inside the list, at a child whose predicate
holds. -/
theorem raceIdx_some {α : Type} (p : α → Bool) :
    ∀ (l : List α) (i : Nat), raceIdx p l = some i →
      ∃ hl : i < l.length, p (l.get ⟨i, hl⟩) = true := by
  intro l
  induction l with
  | nil => intro i h; exact absurd h (by simp [raceIdx])
  | cons a rest ih =>
      intro i h
      unfold raceIdx at h
      by_cases hp : p a
      · rw [if_pos hp] at h
        obtain rfl : i = 0 := by
          have := h.symm
          simpa using this
        exact ⟨by simp, hp⟩
      · rw [if_neg hp] at h
        cases hr : raceIdx p rest with
        | none =>
            rw [hr] at h
            simp at h
        | some m =>
            rw [hr] at h
            simp at h
            obtain ⟨hm, hpm⟩ := ih m hr
            subst h
            exact ⟨Nat.succ_lt_succ hm, hpm⟩

/-- C7: `List::remove`, `TabList::remove` and `Dropdown::remove` abort
loudly (the underlying `Vec::remove` panics, modelled as `Except.error`)
when the index is at least the length, and with an in-range index they
remove exactly the item at that position (and, for list and tab list,
return it). -/
theorem remove_out_of_range_panics {T : Type} (root : T → Nat)
    (l : ListC T) (tl : TabList T) (dd : Dropdown) (i : Nat)
    (d dt dm : Dom) :
    (l.items.length ≤ i → ∃ e, l.remove i d = Except.error e) ∧
    (∀ h : i < l.items.length, ∃ rest dr,
      l.remove i d = Except.ok (((l.items.get ⟨i, h⟩).item, rest), dr) ∧
      rest.items = l.items.eraseIdx i) ∧
    (tl.items.length ≤ i → ∃ e, TabList.remove root tl i dt = Except.error e) ∧
    (∀ h : i < tl.items.length, ∃ rest dr,
      TabList.remove root tl i dt
        = Except.ok (((tl.items.get ⟨i, h⟩).inner, rest), dr) ∧
      rest.items = tl.items.eraseIdx i) ∧
    (dd.items.length ≤ i → ∃ e, dd.remove i dm = Except.error e) ∧
    (∀ _h : i < dd.items.length, ∃ rest dr,
      dd.remove i dm = Except.ok (rest, dr) ∧
      rest.items = dd.items.eraseIdx i) := by
  refine ⟨?_, ?_, ?_, ?_, ?_, ?_⟩
  · intro hle
    unfold ListC.remove
    rw [show l.items.get? i = none by
      rw [List.get?_eq_getElem?]
      exact List.getElem?_eq_none hle]
    exact ⟨_, rfl⟩
  · intro h
    unfold ListC.remove
    rw [show l.items.get? i = some (l.items.get ⟨i, h⟩) by
      rw [List.get?_eq_getElem?]
      exact List.getElem?_eq_getElem h]
    exact ⟨_, _, rfl, rfl⟩
  · intro hle
    unfold TabList.remove
    rw [show tl.items.get? i = none by
      rw [List.get?_eq_getElem?]
      exact List.getElem?_eq_none hle]
    exact ⟨_, rfl⟩
  · intro h
    unfold TabList.remove
    rw [show tl.items.get? i = some (tl.items.get ⟨i, h⟩) by
      rw [List.get?_eq_getElem?]
      exact List.getElem?_eq_getElem h]
    exact ⟨_, _, rfl, rfl⟩
  · intro hle
    unfold Dropdown.remove
    rw [show dd.items.get? i = none by
      rw [List.get?_eq_getElem?]
      exact List.getElem?_eq_none hle]
    exact ⟨_, rfl⟩
  · intro h
    unfold Dropdown.remove
    rw [show dd.items.get? i = some (dd.items.get ⟨i, h⟩) by
      rw [List.get?_eq_getElem?]
      exact List.getElem?_eq_getElem h]
    exact ⟨_, _, rfl, rfl⟩

theorem remove_out_of_range_panics_witness :
    (demoList3.1.items.length ≤ 5 ∧
      (∃ e, ListC.remove demoList3.1 5 demoList3.2 = Except.error e)) ∧
    (1 < demoList3.1.items.length ∧
      (∃ rest dr, ListC.remove demoList3.1 1 demoList3.2
          = Except.ok (((demoList3.1.items.get ⟨1, by decide⟩).item, rest), dr)
        ∧ rest.items = demoList3.1.items.eraseIdx 1)) :=
  ⟨⟨by decide,
      (remove_out_of_range_panics natRoot demoList3.1 demoTabs2.1
        demoDropdown3.1 5 demoList3.2 demoTabs2.2 demoDropdown3.2).1
        (by decide)⟩,
    ⟨by decide,
      (remove_out_of_range_panics natRoot demoList3.1 demoTabs2.1
        demoDropdown3.1 1 demoList3.2 demoTabs2.2 demoDropdown3.2).2.1
        (by decide)⟩⟩

/-- C8: for every `List`, the index `step()` reports for a click on a given
item is that item's position in the list at the time `step()` is polled
(the race over `items.iter().enumerate()` tags the winning item with its
current enumeration index); hence after a removal the reported indices of
all later items shift down — see the witness, which removes index 1 from a
3-item list and observes the item formerly at index 2 reported as index 1. -/
theorem list_step_reports_current_position {T : Type} (l : ListC T)
    (hnodup : (l.items.map fun it => it.on_click).Nodup)
    (j : Nat) (hj : j < l.items.length) :
    l.stepFired ((l.items.get ⟨j, hj⟩).on_click)
      = some { index := j, event := (l.items.get ⟨j, hj⟩).on_click } := by
  unfold ListC.stepFired
  rw [raceIdx_keyed (fun it => it.on_click) l.items hnodup j hj]
  rfl

theorem list_step_reports_current_position_witness :
    (demoListRemoved.1.2.items.map fun it => it.on_click).Nodup ∧
    1 < demoListRemoved.1.2.items.length ∧
    (demoListRemoved.1.2.items.get ⟨1, by decide⟩).on_click
      = (demoList3.1.items.get ⟨2, by decide⟩).on_click ∧
    demoListRemoved.1.2.stepFired
        ((demoListRemoved.1.2.items.get ⟨1, by decide⟩).on_click)
      = some { index := 1
             , event := (demoListRemoved.1.2.items.get ⟨1, by decide⟩).on_click } :=
  ⟨by decide, by decide, by decide,
    list_step_reports_current_position demoListRemoved.1.2 (by decide) 1
      (by decide)⟩

/-- C9: for every `Dropdown` whose listeners are pairwise distinct, a
resolved `step()` carries exactly one tagged outcome: it returns `None`
exactly when the interaction that resolved it is a click on the toggle
button, and `Some(ItemClicked(index = i))` exactly when it is a click on
menu item `i`. -/
theorem dropdown_step_resolution (dd : Dropdown)
    (hnodup : (dd.toggle_click :: dd.items.map fun it => it.on_click).Nodup) :
    (∀ fired, dd.stepFired fired = some none ↔ fired = dd.toggle_click) ∧
    (∀ j, ∀ hj : j < dd.items.length,
      dd.stepFired ((dd.items.get ⟨j, hj⟩).on_click)
        = some (some { index := j
                     , event := (dd.items.get ⟨j, hj⟩).on_click })) ∧
    (∀ fired ev, dd.stepFired fired = some (some ev) →
      ∃ h : ev.index < dd.items.length,
        fired = (dd.items.get ⟨ev.index, h⟩).on_click) := by
  have hnd := List.nodup_cons.mp hnodup
  refine ⟨?_, ?_, ?_⟩
  · intro fired
    constructor
    · intro h
      by_contra hne
      unfold Dropdown.stepFired at h
      rw [if_neg hne] at h
      cases hr : raceIdx (fun it => it.on_click == fired) dd.items with
      | none => rw [hr] at h; simp at h
      | some m => rw [hr] at h; simp at h
    · intro h
      subst h
      unfold Dropdown.stepFired
      rw [if_pos rfl]
  · intro j hj
    have hfne : (dd.items.get ⟨j, hj⟩).on_click ≠ dd.toggle_click := by
      intro he
      apply hnd.1
      rw [← he]
      exact List.mem_map_of_mem _ (List.get_mem dd.items j hj)
    unfold Dropdown.stepFired
    rw [if_neg hfne]
    rw [raceIdx_keyed (fun it => it.on_click) dd.items hnd.2 j hj]
    rfl
  · intro fired ev h
    unfold Dropdown.stepFired at h
    by_cases ht : fired = dd.toggle_click
    · rw [if_pos ht] at h
      simp at h
    · rw [if_neg ht] at h
      cases hr : raceIdx (fun it => it.on_click == fired) dd.items with
      | none =>
          rw [hr] at h
          simp at h
      | some m =>
          rw [hr] at h
          have hev : ({ index := m, event := fired } : DropdownEvent) = ev :=
            Option.some_inj.mp (Option.some_inj.mp h)
          obtain ⟨hm, hpm⟩ := raceIdx_some (fun it => it.on_click == fired)
            dd.items m hr
          subst hev
          exact ⟨hm, (beq_iff_eq.mp hpm).symm⟩

theorem dropdown_step_resolution_witness :
    (demoDropdown3.1.toggle_click ::
        demoDropdown3.1.items.map fun it => it.on_click).Nodup ∧
    demoDropdown3.1.stepFired demoDropdown3.1.toggle_click = some none ∧
    demoDropdown3.1.stepFired
        ((demoDropdown3.1.items.get ⟨2, by decide⟩).on_click)
      = some (some { index := 2
                   , event := (demoDropdown3.1.items.get
                       ⟨2, by decide⟩).on_click }) :=
  ⟨by decide,
    ((dropdown_step_resolution demoDropdown3.1 (by decide)).1
      demoDropdown3.1.toggle_click).mpr rfl,
    (dropdown_step_resolution demoDropdown3.1 (by decide)).2.1 2 (by decide)⟩

/-- `add_pane` preserves the Retain invariant: the new slot is hidden,
appended last, and freshly allocated. -/
theorem retainInv_add_pane {T : Type} (root : T → Nat) (p : Panes T)
    (pane : T) (d : Dom) (h : RetainInv p d) :
    RetainInv (Panes.add_pane root p pane d).1
      (Panes.add_pane root p pane d).2 := by
  obtain ⟨hmode, hlen, ds, hds, hchild, hnodup, hwn, hbound, hwlt, hvis⟩ := h
  have hwne : p.wrapper ≠ d.nextId := Nat.ne_of_lt hwlt
  have hdsne : ds ≠ d.nextId :=
    Nat.ne_of_lt (hbound ds (List.mem_cons_self ds p.slots))
  have hslotne : ∀ s ∈ p.slots, s ≠ d.nextId := fun s hs =>
    Nat.ne_of_lt (hbound s (List.mem_cons_of_mem ds hs))
  have hnewnotin : d.nextId ∉ ds :: p.slots := fun hmem =>
    Nat.lt_irrefl _ (hbound _ hmem)
  unfold Panes.add_pane
  rw [if_pos hmode]
  dsimp only
  rw [Dom.fresh_fst]
  -- visibility of pre-existing nodes is untouched
  have hvz : ∀ m, m ≠ d.nextId →
      (((((((d.fresh.2.setStyle d.nextId "display" "none").setStyle
        d.nextId "flex" "1").setStyle d.nextId "min-height"
        "0").appendChild d.nextId (root pane)).appendChild p.wrapper
        d.nextId)).visible m ↔ d.visible m) := by
    intro m hm
    rw [Dom.visible_appendChild, Dom.visible_appendChild,
      Dom.visible_setStyle_of_ne _ _ _ hm, Dom.visible_setStyle_of_ne _ _ _ hm,
      Dom.visible_setStyle_of_ne _ _ _ hm, Dom.visible_fresh_of_ne _ hm]
  -- the new slot is hidden
  have hvnew : ¬ (((((((d.fresh.2.setStyle d.nextId "display"
      "none").setStyle d.nextId "flex" "1").setStyle d.nextId "min-height"
      "0").appendChild d.nextId (root pane)).appendChild p.wrapper
      d.nextId)).visible d.nextId) := by
    rw [Dom.visible_appendChild, Dom.visible_appendChild,
      Dom.visible_setStyle_of_ne_key _ _ _ (by decide),
      Dom.visible_setStyle_of_ne_key _ _ _ (by decide)]
    exact Dom.not_visible_setStyle_display_none _ _
  refine ⟨hmode, by simp [hlen], ds, hds, ?_, ?_, ?_, ?_, ?_, ?_⟩
  · show (_ : Dom).children p.wrapper = ds :: (p.slots ++ [d.nextId])
    rw [Dom.appendChild_children_self,
      Dom.appendChild_children_of_ne _ _ hwne, Dom.setStyle_children,
      Dom.setStyle_children, Dom.setStyle_children,
      Dom.fresh_children_of_ne d hwne, hchild]
    simp
  · show (ds :: (p.slots ++ [d.nextId])).Nodup
    rw [show ds :: (p.slots ++ [d.nextId]) = (ds :: p.slots) ++ [d.nextId]
      from rfl]
    rw [List.nodup_append]
    refine ⟨hnodup, List.nodup_singleton _, ?_⟩
    intro a ha hb
    rw [List.mem_singleton] at hb
    subst hb
    exact hnewnotin ha
  · show p.wrapper ∉ ds :: (p.slots ++ [d.nextId])
    intro hmem
    rcases List.mem_cons.mp hmem with hmem | hmem
    · exact hwn (hmem ▸ List.mem_cons_self ds p.slots)
    · rcases List.mem_append.mp hmem with hmem | hmem
      · exact hwn (List.mem_cons_of_mem ds hmem)
      · exact hwne (List.mem_singleton.mp hmem)
  · show ∀ s ∈ ds :: (p.slots ++ [d.nextId]), s < (_ : Dom).nextId
    intro s hs
    rw [Dom.appendChild_nextId, Dom.appendChild_nextId,
      Dom.setStyle_nextId, Dom.setStyle_nextId, Dom.setStyle_nextId,
      Dom.fresh_nextId]
    rcases List.mem_cons.mp hs with hs | hs
    · exact Nat.lt_succ_of_lt (hs ▸ hbound ds (List.mem_cons_self ds p.slots))
    · rcases List.mem_append.mp hs with hs | hs
      · exact Nat.lt_succ_of_lt (hbound s (List.mem_cons_of_mem ds hs))
      · rw [List.mem_singleton.mp hs]
        exact Nat.lt_succ_self _
  · show p.wrapper < (_ : Dom).nextId
    rw [Dom.appendChild_nextId, Dom.appendChild_nextId,
      Dom.setStyle_nextId, Dom.setStyle_nextId, Dom.setStyle_nextId,
      Dom.fresh_nextId]
    exact Nat.lt_succ_of_lt hwlt
  · show (match p.index with
      | none => (_ : Dom).visible ds ∧
          ∀ s ∈ p.slots ++ [d.nextId], ¬ (_ : Dom).visible s
      | some n => n < (p.slots ++ [d.nextId]).length ∧
          ¬ (_ : Dom).visible ds ∧
          (∀ j, ∀ hj : j < (p.slots ++ [d.nextId]).length,
            ((_ : Dom).visible ((p.slots ++ [d.nextId]).get ⟨j, hj⟩) ↔ j = n)))
    cases hidx : p.index with
    | none =>
        rw [hidx] at hvis
        refine ⟨(hvz ds hdsne).mpr hvis.1, ?_⟩
        intro s hs
        rcases List.mem_append.mp hs with hs | hs
        · rw [hvz s (hslotne s hs)]
          exact hvis.2 s hs
        · rw [List.mem_singleton.mp hs]
          exact hvnew
    | some n =>
        rw [hidx] at hvis
        obtain ⟨hn, hdsh, hiff⟩ := hvis
        refine ⟨by simp; omega, (fun hx => hdsh ((hvz ds hdsne).mp hx)), ?_⟩
        intro j hj
        by_cases hjl : j < p.slots.length
        · have hget : (p.slots ++ [d.nextId]).get ⟨j, hj⟩ = p.slots.get ⟨j, hjl⟩ := by
            simp [List.get_eq_getElem, List.getElem_append_left hjl]
          rw [hget, hvz _ (hslotne _ (List.get_mem p.slots j hjl))]
          exact hiff j hjl
        · have hjeq : j = p.slots.length := by
            have := hj
            simp at this
            omega
          have hget : (p.slots ++ [d.nextId]).get ⟨j, hj⟩ = d.nextId := by
            simp [List.get_eq_getElem, List.getElem_concat_length _ _ _ hjeq]
          rw [hget]
          constructor
          · intro hx
            exact absurd hx hvnew
          · intro hx
            omega

/-- `select` preserves the Retain invariant: the previously active slot is
hidden, the newly selected slot shown, everything else untouched. -/
theorem retainInv_select {T : Type} (root : T → Nat) (p : Panes T)
    (i : Nat) (d : Dom) (h : RetainInv p d) :
    RetainInv (Panes.select root p i d).1 (Panes.select root p i d).2 := by
  by_cases hsame : p.index = some i
  · unfold Panes.select
    rw [if_pos hsame]
    exact h
  · by_cases hilt : i < p.panes.length
    · obtain ⟨hmode, hlen, ds, hds, hchild, hnodup, hwn, hbound, hwlt, hvis⟩ := h
      have hilt' : i < p.slots.length := by omega
      have hgetDi : p.slots.getD i 0 = p.slots.get ⟨i, hilt'⟩ := by
        simp [List.getD_eq_getElem?_getD, List.getElem?_eq_getElem hilt',
          List.get_eq_getElem]
      have hds_notin : ds ∉ p.slots := (List.nodup_cons.mp hnodup).1
      have hslots_nodup : p.slots.Nodup := (List.nodup_cons.mp hnodup).2
      have hds_ne_get : ∀ (j : Nat) (hj : j < p.slots.length),
          ds ≠ p.slots.get ⟨j, hj⟩ := by
        intro j hj he
        exact hds_notin (he ▸ List.get_mem p.slots j hj)
      unfold Panes.select
      rw [if_neg hsame, hmode]
      dsimp only
      rw [if_pos hilt]
      dsimp only
      rw [hgetDi]
      refine ⟨rfl, hlen, ds, hds, ?_, hnodup, hwn, ?_, ?_, ?_⟩
      · show (_ : Dom).children p.wrapper = ds :: p.slots
        rw [Dom.removeStyle_children, Dom.setStyle_children]
        exact hchild
      · show ∀ s ∈ ds :: p.slots, s < (_ : Dom).nextId
        rw [Dom.removeStyle_nextId, Dom.setStyle_nextId]
        exact hbound
      · show p.wrapper < (_ : Dom).nextId
        rw [Dom.removeStyle_nextId, Dom.setStyle_nextId]
        exact hwlt
      · show i < p.slots.length ∧
          ¬ (_ : Dom).visible ds ∧
          (∀ j, ∀ hj : j < p.slots.length,
            ((_ : Dom).visible (p.slots.get ⟨j, hj⟩) ↔ j = i))
        cases hidx : p.index with
        | none =>
            rw [hidx] at hvis
            have hact : p.active_slot = ds := by
              unfold Panes.active_slot
              rw [hidx, hds]
              rfl
            rw [hact]
            refine ⟨hilt', ?_, ?_⟩
            · rw [Dom.visible_removeStyle_of_ne _ _ (hds_ne_get i hilt')]
              exact Dom.not_visible_setStyle_display_none _ _
            · intro j hj
              by_cases hji : j = i
              · subst hji
                simp only [iff_true]
                exact Dom.visible_removeStyle_display _ _
              · have hne_get : p.slots.get ⟨j, hj⟩ ≠ p.slots.get ⟨i, hilt'⟩ := by
                  intro he
                  exact hji (congrArg Fin.val (hslots_nodup.get_inj_iff.mp he))
                rw [Dom.visible_removeStyle_of_ne _ _ hne_get,
                  Dom.visible_setStyle_of_ne _ _ _
                    (fun he => (hds_ne_get j hj) he.symm)]
                simp only [hji, iff_false]
                exact hvis.2 _ (List.get_mem p.slots j hj)
        | some n =>
            rw [hidx] at hvis
            obtain ⟨hn, hdsh, hiff_old⟩ := hvis
            have hni : n ≠ i := fun he => hsame (he ▸ hidx)
            have hact : p.active_slot = p.slots.get ⟨n, hn⟩ := by
              unfold Panes.active_slot
              rw [hidx]
              simp [List.getD_eq_getElem?_getD, List.getElem?_eq_getElem hn,
                List.get_eq_getElem]
            rw [hact]
            have hget_ne : p.slots.get ⟨n, hn⟩ ≠ p.slots.get ⟨i, hilt'⟩ := by
              intro he
              exact hni (congrArg Fin.val (hslots_nodup.get_inj_iff.mp he))
            refine ⟨hilt', ?_, ?_⟩
            · rw [Dom.visible_removeStyle_of_ne _ _ (hds_ne_get i hilt'),
                Dom.visible_setStyle_of_ne _ _ _ (hds_ne_get n hn)]
              exact hdsh
            · intro j hj
              by_cases hji : j = i
              · subst hji
                simp only [iff_true]
                exact Dom.visible_removeStyle_display _ _
              · have hne_geti : p.slots.get ⟨j, hj⟩ ≠ p.slots.get ⟨i, hilt'⟩ := by
                  intro he
                  exact hji (congrArg Fin.val (hslots_nodup.get_inj_iff.mp he))
                rw [Dom.visible_removeStyle_of_ne _ _ hne_geti]
                by_cases hjn : j = n
                · subst hjn
                  have : p.slots.get ⟨j, hj⟩ = p.slots.get ⟨j, hn⟩ := rfl
                  rw [this]
                  simp only [hji, iff_false]
                  exact Dom.not_visible_setStyle_display_none _ _
                · have hne_getn : p.slots.get ⟨j, hj⟩ ≠ p.slots.get ⟨n, hn⟩ := by
                    intro he
                    exact hjn (congrArg Fin.val (hslots_nodup.get_inj_iff.mp he))
                  rw [Dom.visible_setStyle_of_ne _ _ _ hne_getn]
                  simp only [hji, iff_false]
                  intro hx
                  exact hjn ((hiff_old j hj).mp hx)
    · unfold Panes.select
      rw [if_neg hsame, h.1]
      dsimp only
      rw [if_neg hilt]
      exact h

/-- A freshly constructed Retain container satisfies the invariant. -/
theorem retainInv_init {T : Type} (root : T → Nat) (pane0 : T) (d0 : Dom) :
    RetainInv (Panes.new_retained root d0.fresh.1 pane0 d0.fresh.2).1
      (Panes.new_retained root d0.fresh.1 pane0 d0.fresh.2).2 := by
  unfold RetainInv Panes.new_retained
  dsimp only
  refine ⟨rfl, rfl, d0.nextId + 1, rfl, ?_, ?_, ?_, ?_, ?_, ?_⟩ <;>
    (simp [Dom.fresh, Dom.appendChild, Dom.setStyle, Dom.visible]; try omega)

/-- `select` never changes the mode or the slot list. -/
theorem Panes.select_mode_slots {T : Type} (root : T → Nat) (p : Panes T)
    (i : Nat) (d : Dom) :
    (Panes.select root p i d).1.mode = p.mode ∧
    (Panes.select root p i d).1.slots = p.slots := by
  unfold Panes.select
  split
  · exact ⟨rfl, rfl⟩
  · split <;> (try split) <;> exact ⟨rfl, rfl⟩

/-- The Retain invariant is preserved by arbitrary operation sequences. -/
theorem retainInv_runPanesOps {T : Type} (root : T → Nat) :
    ∀ (ops : List (PanesOp T)) (st : Panes T × Dom), RetainInv st.1 st.2 →
      RetainInv (runPanesOps root st ops).1 (runPanesOps root st ops).2 := by
  intro ops
  induction ops with
  | nil => intro st h; exact h
  | cons op rest ih =>
      intro st h
      show RetainInv (runPanesOps root (runPanesOp root st op) rest).1
        (runPanesOps root (runPanesOp root st op) rest).2
      apply ih
      cases op with
      | add pane => exact retainInv_add_pane root st.1 pane st.2 h
      | sel i => exact retainInv_select root st.1 i st.2 h

/-- In Retain mode, each `add_pane` appends exactly one slot and `select`
appends none, so the slot count equals the number of `add` operations. -/
theorem runPanesOps_slots_count {T : Type} (root : T → Nat) :
    ∀ (ops : List (PanesOp T)) (st : Panes T × Dom),
      st.1.mode = PaneMode.Retain →
      (runPanesOps root st ops).1.mode = PaneMode.Retain ∧
      (runPanesOps root st ops).1.slots.length
        = st.1.slots.length + ops.countP (fun op => PanesOp.isAdd op) := by
  intro ops
  induction ops with
  | nil => intro st h; exact ⟨h, by simp [runPanesOps]⟩
  | cons op rest ih =>
      intro st h
      have hstep : (runPanesOp root st op).1.mode = PaneMode.Retain ∧
          (runPanesOp root st op).1.slots.length
            = st.1.slots.length + (if op.isAdd then 1 else 0) := by
        cases op with
        | add pane =>
            unfold runPanesOp Panes.add_pane
            dsimp only
            rw [if_pos h]
            dsimp only
            exact ⟨h, by simp [PanesOp.isAdd]⟩
        | sel i =>
            have hms := Panes.select_mode_slots root st.1 i st.2
            exact ⟨hms.1 ▸ h, by simp [runPanesOp, hms.2, PanesOp.isAdd]⟩
      have hrest := ih (runPanesOp root st op) hstep.1
      refine ⟨hrest.1, ?_⟩
      show (runPanesOps root (runPanesOp root st op) rest).1.slots.length = _
      rw [hrest.2, hstep.2, List.countP_cons]
      cases op <;> (simp [PanesOp.isAdd]; try omega)

/-- Reading off the user-facing facts from the invariant: the default slot
and all pane slots are the wrapper's children, and the active slot is the
unique visible one. -/
theorem retainInv_surface {T : Type} (p : Panes T) (d : Dom)
    (h : RetainInv p d) :
    ∃ ds, p.defaultSlot = some ds ∧
      d.children p.wrapper = ds :: p.slots ∧
      d.visible p.active_slot ∧
      (∀ t ∈ ds :: p.slots, d.visible t → t = p.active_slot) := by
  obtain ⟨hmode, hlen, ds, hds, hchild, hnodup, hwn, hbound, hwlt, hvis⟩ := h
  have hds_notin : ds ∉ p.slots := (List.nodup_cons.mp hnodup).1
  refine ⟨ds, hds, hchild, ?_, ?_⟩
  · cases hidx : p.index with
    | none =>
        rw [hidx] at hvis
        have hact : p.active_slot = ds := by
          unfold Panes.active_slot
          rw [hidx, hds]
          rfl
        rw [hact]
        exact hvis.1
    | some n =>
        rw [hidx] at hvis
        obtain ⟨hn, hdsh, hiff⟩ := hvis
        have hact : p.active_slot = p.slots.get ⟨n, hn⟩ := by
          unfold Panes.active_slot
          rw [hidx]
          simp [List.getD_eq_getElem?_getD, List.getElem?_eq_getElem hn,
            List.get_eq_getElem]
        rw [hact]
        exact (hiff n hn).mpr rfl
  · intro t ht hvt
    cases hidx : p.index with
    | none =>
        rw [hidx] at hvis
        have hact : p.active_slot = ds := by
          unfold Panes.active_slot
          rw [hidx, hds]
          rfl
        rw [hact]
        rcases List.mem_cons.mp ht with ht | ht
        · exact ht
        · exact absurd hvt (hvis.2 t ht)
    | some n =>
        rw [hidx] at hvis
        obtain ⟨hn, hdsh, hiff⟩ := hvis
        have hact : p.active_slot = p.slots.get ⟨n, hn⟩ := by
          unfold Panes.active_slot
          rw [hidx]
          simp [List.getD_eq_getElem?_getD, List.getElem?_eq_getElem hn,
            List.get_eq_getElem]
        rw [hact]
        rcases List.mem_cons.mp ht with ht | ht
        · exact absurd hvt (ht ▸ hdsh)
        · obtain ⟨⟨j, hj⟩, hget⟩ := List.mem_iff_get.mp ht
          have hvj : d.visible (p.slots.get ⟨j, hj⟩) := hget ▸ hvt
          have hjn : j = n := (hiff j hj).mp hvj
          rw [← hget]
          subst hjn
          rfl

/-- C2: for every Retain-mode `Panes` container (fresh wrapper, default
pane) and every sequence of `add_pane`/`select` operations: the default
slot and one slot per added pane remain appended to the wrapper for the
container's whole life (nothing ever detaches them), and exactly one slot
is visible (all others carry `display: none`) — namely the active slot:
the default slot before any selection, the most recently selected pane's
slot afterwards. -/
theorem panes_retain_slots_attached_one_visible {T : Type} (root : T → Nat)
    (pane0 : T) (d0 : Dom) (ops : List (PanesOp T)) :
    ∃ ds, (retainRun root pane0 d0 ops).1.defaultSlot = some ds ∧
      (retainRun root pane0 d0 ops).2.children
          (retainRun root pane0 d0 ops).1.wrapper
        = ds :: (retainRun root pane0 d0 ops).1.slots ∧
      (retainRun root pane0 d0 ops).1.slots.length
        = ops.countP (fun op => PanesOp.isAdd op) ∧
      (retainRun root pane0 d0 ops).2.visible
        (retainRun root pane0 d0 ops).1.active_slot ∧
      (∀ t ∈ ds :: (retainRun root pane0 d0 ops).1.slots,
        (retainRun root pane0 d0 ops).2.visible t →
          t = (retainRun root pane0 d0 ops).1.active_slot) := by
  have hinv := retainInv_runPanesOps root ops
    (Panes.new_retained root d0.fresh.1 pane0 d0.fresh.2)
    (retainInv_init root pane0 d0)
  have hcount := runPanesOps_slots_count root ops
    (Panes.new_retained root d0.fresh.1 pane0 d0.fresh.2) rfl
  obtain ⟨ds, hds, hchild, hvisact, huniq⟩ := retainInv_surface _ _ hinv
  refine ⟨ds, hds, hchild, ?_, hvisact, huniq⟩
  show (runPanesOps root (Panes.new_retained root d0.fresh.1 pane0
    d0.fresh.2) ops).1.slots.length = _
  rw [hcount.2]
  rw [show (Panes.new_retained root d0.fresh.1 pane0
    d0.fresh.2).1.slots.length = 0 from rfl]
  exact Nat.zero_add _

end Iti
